import Mathlib

/-! # zipr: task lifecycle of the archive server (`main.go`)

A shallow embedding of the server in `main.go`: the task registry, the four HTTP
handlers (`taskHandler`, `linksHandler`, `statusHandler`, `downloadHandler`) and
`processTask` with `fetchFile`.  Everything outside the repository (`http.Get`,
`url.Parse`, `archive/zip`, `uuid.NewString`, the order in which the goroutines
deliver their results, the success of the response write) is a parameter.
Requests are served one after the other; `MAX_LINKS` and `MAX_TASKS` are Go
`int`s and are integers here.
-/

namespace Zipr

/-! ## Data model -/

/-- The `TaskStatus` enumeration (`iota` order of `main.go`). -/
inductive TaskStatus
  | Created
  | Pending
  | Processing
  | Completed
  | Partial
  | Error
  deriving DecidableEq, Repr

/-- The method `TaskStatus.String`: the display name, indexed by the status. -/
def TaskStatus.String : TaskStatus → String
  | .Created => "Created"
  | .Pending => "Pending"
  | .Processing => "Processing"
  | .Completed => "Completed"
  | .Partial => "Partially Completed"
  | .Error => "Error"

/-- A byte slice. -/
abbrev Bytes := List Nat

/-- The `Task` struct; `archive = none` is the nil slice. -/
structure Task where
  links : List String
  status : TaskStatus
  log : String
  archive : Option Bytes
  deriving DecidableEq, Repr

/-- The package-level configuration variables, set once in `main`. -/
structure Config where
  ADDRESS : String
  PORT : String
  EXTS : List String
  MAX_LINKS : Int
  MAX_TASKS : Int

/-- The registry `tasks`: a finite map from identifier to task. -/
abbrev Tasks := AList (fun _ : String => Task)

/-- The number of keys of the map, `len(tasks)`. -/
def Tasks.len (tasks : Tasks) : Nat := tasks.keys.length

/-- What a handler sends back. -/
inductive Response
  | error (code : Nat) (msg : String)
  | json (fields : List (String × String))
  | file (headers : List (String × String)) (body : Bytes)
  deriving DecidableEq, Repr

/-! ## `path.Ext` and `path.Base` of the Go standard library -/

/-- The backward scan of `path.Ext` over the reversed path; `acc` is the suffix already passed. -/
def extScan : List Char → List Char → List Char
  | [], _ => []
  | c :: rest, acc =>
    if c = '/' then []
    else if c = '.' then '.' :: acc
    else extScan rest (c :: acc)

/-- Go `path.Ext`: the suffix starting at the last dot of the last slash-separated element. -/
def pathExt (p : String) : String := String.mk (extScan p.data.reverse [])

/-- Go `path.Base`: the last element of the path, trailing slashes removed. -/
def pathBase (p : String) : String :=
  if p.data = [] then "."
  else
    let stripped := (p.data.reverse.dropWhile (fun c => c = '/')).reverse
    let last := (stripped.reverse.takeWhile (fun c => c ≠ '/')).reverse
    if last = [] then "/" else String.mk last

/-! ## The environment of one request -/

/-- The local `Fetch` struct of `processTask`; `err = none` is a nil error. -/
structure Fetch where
  filename : String
  data : Bytes
  err : Option String
  deriving DecidableEq, Repr

/-- One entry of the zip writer: its name and the bytes written to it. -/
abbrev ZipEntry := String × Bytes

/-- Everything `processTask` obtains from outside the program. -/
structure World where
  /-- The call `http.Get(url)`: the error text, or the response's status code together with
  the result of `io.ReadAll(resp.Body)`. -/
  httpGet : String → Except String (Nat × Except String Bytes)
  /-- The call `url.Parse(link)`: the parsed `u.Path`, or `none` on a parse error. -/
  urlPath : String → Option String
  /-- The order in which the goroutines' results arrive on the channel: some rearrangement
  of the list of results, on which nothing below depends. -/
  arrival : List Fetch → List Fetch
  /-- Whether `zipper.Create(name)` returns an error. -/
  zipCreateErr : String → Bool
  /-- Whether `file.Write(data)` on the entry `name` returns an error. -/
  zipWriteErr : String → Bytes → Bool
  /-- Whether `zipper.Close()` returns an error. -/
  zipCloseErr : List ZipEntry → Bool
  /-- The content of the buffer after `zipper.Close()`; it is never the nil slice, since
  `Close` writes the end-of-central-directory record. -/
  zipBytes : List ZipEntry → Bytes

/-! ## `processTask` -/

/-- The function `fetchFile`: the response body, or the text of the error. -/
def fetchFile (w : World) (url : String) : Except String Bytes :=
  match w.httpGet url with
  | .error e => .error e
  | .ok (code, body) =>
    if code ≠ 200 then .error ("failed to fetch " ++ url ++ ": code " ++ toString code)
    else body

/-- The body of one goroutine of `processTask` (lines 187-203). -/
def fetchOne (w : World) (link : String) : Fetch :=
  match fetchFile w link with
  | .error e => ⟨link, [], some e⟩
  | .ok data =>
    match w.urlPath link with
    | none => ⟨link, data, none⟩
    | some p => ⟨pathBase p, data, none⟩

/-- What the channel `fetches` holds after `wg.Wait()` (lines 180-206). -/
def fanOut (w : World) (links : List String) : List Fetch :=
  w.arrival (links.map (fetchOne w))

/-- One iteration of the archive loop (lines 212-233) on the task and the zip writer's entries.
A `Create` that fails on its header has already recorded the entry in the writer's
directory, so the entry stays, without data, as it does after a failed `Write`. -/
def packStep (w : World) (st : Task × List ZipEntry) (fetch : Fetch) : Task × List ZipEntry :=
  match fetch.err with
  | some e => ({ st.1 with status := .Partial, log := st.1.log ++ e }, st.2)
  | none =>
    if w.zipCreateErr fetch.filename then
      ({ st.1 with status := .Error }, st.2 ++ [(fetch.filename, [])])
    else if w.zipWriteErr fetch.filename fetch.data then
      ({ st.1 with status := .Error }, st.2 ++ [(fetch.filename, [])])
    else (st.1, st.2 ++ [(fetch.filename, fetch.data)])

/-- The archive loop (lines 210-233), starting from an empty zip writer. -/
def packLoop (w : World) (fetches : List Fetch) (task : Task) : Task × List ZipEntry :=
  fetches.foldl (packStep w) (task, [])

/-- Lines 234-245: close the writer, resolve the final status, store the archive. -/
def finish (w : World) (st : Task × List ZipEntry) : Task :=
  if w.zipCloseErr st.2 then { st.1 with status := .Error }
  else
    let task := if st.1.status ≠ .Partial then { st.1 with status := .Completed } else st.1
    { task with archive := some (w.zipBytes st.2) }

/-- Lines 172 and 208-245 of `processTask` on a given content of the channel `fetches`. -/
def processFetches (w : World) (fetches : List Fetch) (task : Task) : Task :=
  finish w (packLoop w fetches { task with status := .Processing })

/-- The function `processTask`. -/
def processTask (w : World) (task : Task) : Task :=
  processFetches w (fanOut w task.links) task

/-! ## The handlers -/

/-- The function `taskHandler`; `uuid` is the result of `uuid.NewString()`. -/
def taskHandler (c : Config) (uuid : String) (tasks : Tasks) : Tasks × Response :=
  if (tasks.len : Int) ≥ c.MAX_TASKS then
    (tasks, .error 503 "maximum number of active tasks reached")
  else
    (tasks.insert uuid ⟨[], .Pending, "", none⟩,
      .json [("id", uuid), ("status", TaskStatus.Created.String)])

/-- The inner loop of `linksHandler` (lines 98-103): every allow-list entry equal to the
extension appends the link; the `continue` resumes the scan at the next entry. -/
def scanExts (l : String) : List String → List String → List String
  | [], links => links
  | e :: es, links =>
    if e = pathExt l then scanExts l es (links ++ [l]) else scanExts l es links

/-- The outer loop of `linksHandler` (lines 93-104) over the request's links. -/
def addLinks (c : Config) : List String → List String → List String
  | [], links => links
  | l :: ls, links =>
    if (links.length : Int) ≥ c.MAX_LINKS then links
    else addLinks c ls (scanExts l c.EXTS links)

/-- The function `linksHandler`; `body` is the decoded request (`none` when decoding fails). -/
def linksHandler (c : Config) (w : World) (body : Option (String × List String))
    (tasks : Tasks) : Tasks × Response :=
  match body with
  | none => (tasks, .error 400 "invalid request")
  | some (id, links) =>
    match tasks.lookup id with
    | none => (tasks, .error 404 "task not found")
    | some task =>
      if task.status ≠ .Pending then (tasks, .error 400 "task does not accept more links")
      else
        let task := { task with links := addLinks c links task.links }
        if (task.links.length : Int) ≥ c.MAX_LINKS then
          (tasks.insert id (processTask w task),
            .json [("status", TaskStatus.Processing.String)])
        else (tasks.insert id task, .json [("status", TaskStatus.Pending.String)])

/-- The download locator of `statusHandler`. -/
def downloadLink (c : Config) (id : String) : String :=
  c.ADDRESS ++ ":" ++ c.PORT ++ "/download/" ++ id

/-- The function `statusHandler`. -/
def statusHandler (c : Config) (id : String) (tasks : Tasks) : Response :=
  match tasks.lookup id with
  | none => .error 404 "task not found"
  | some task =>
    if task.status = .Completed then
      .json [("status", TaskStatus.Completed.String), ("link", downloadLink c id)]
    else if task.status = .Partial then
      .json [("status", TaskStatus.Partial.String), ("log", task.log),
        ("link", downloadLink c id)]
    else .json [("status", task.status.String)]

/-- The function `downloadHandler`; `urlPath` is `r.URL.Path`, `writeErr` tells whether
`w.Write` returns an error. -/
def downloadHandler (urlPath : String) (writeErr : Bool) (tasks : Tasks) : Tasks × Response :=
  let id := pathBase urlPath
  match tasks.lookup id with
  | none => (tasks, .error 404 "wrong download link")
  | some task =>
    if writeErr then (tasks, .error 500 "failure on archive download")
    else
      (tasks.erase id,
        .file [("Content-Type", "application/zip"),
            ("Content-Disposition", "attachment; filename=\"" ++ id ++ ".zip\""),
            ("Content-Length", toString (task.archive.getD []).length)]
          (task.archive.getD []))

/-! ## Sequential executions -/

/-- One request to the server, with what the outside world supplies for it. -/
inductive Op
  | create (uuid : String)
  | addLinks (w : World) (body : Option (String × List String))
  | status (id : String)
  | download (urlPath : String) (writeErr : Bool)

/-- The registry after one request. -/
def step (c : Config) (tasks : Tasks) : Op → Tasks
  | .create uuid => (taskHandler c uuid tasks).1
  | .addLinks w body => (linksHandler c w body tasks).1
  | .status _ => tasks
  | .download urlPath writeErr => (downloadHandler urlPath writeErr tasks).1

/-- The registry after a sequence of requests, served one after the other. -/
def runOps (c : Config) (tasks : Tasks) (ops : List Op) : Tasks :=
  ops.foldl (step c) tasks

/-- The registries the server can be in: `tasks` starts empty and changes by requests only. -/
inductive Reachable (c : Config) : Tasks → Prop
  | init : Reachable c ∅
  | next (tasks : Tasks) (op : Op) : Reachable c tasks → Reachable c (step c tasks op)

/-! ## Statements of the specification, written from its words -/

/-- An archive-entry failure: the fetch succeeded and `Create` or `Write` of its entry fails. -/
def entryFails (w : World) (f : Fetch) : Bool :=
  f.err.isNone && (w.zipCreateErr f.filename || w.zipWriteErr f.filename f.data)

/-- The status resolution of the specification: Error before Partial before Completed. -/
def priorityStatus (w : World) (fetches : List Fetch) : TaskStatus :=
  if fetches.any (entryFails w) then .Error
  else if fetches.any (fun f => f.err.isSome) then .Partial
  else .Completed

/-- The error texts of the failed fetches, in the order of the channel. -/
def failureTexts (fetches : List Fetch) : List String :=
  fetches.filterMap Fetch.err

/-- The archive entries of the successful fetches, in the order of the channel. -/
def successEntries (fetches : List Fetch) : List ZipEntry :=
  (fetches.filter (fun f => f.err.isNone)).map (fun f => (f.filename, f.data))

/-- The terminal statuses. -/
def TaskStatus.terminal (s : TaskStatus) : Prop :=
  s = .Completed ∨ s = .Partial ∨ s = .Error

/-- The inner loop with `break` in place of `continue`: the scan stops at the first match. -/
def scanExtsFirst (l : String) : List String → List String → List String
  | [], links => links
  | e :: es, links =>
    if e = pathExt l then links ++ [l] else scanExtsFirst l es links

/-- The add-links loop over the variant that stops at the first match. -/
def addLinksFirst (c : Config) : List String → List String → List String
  | [], links => links
  | l :: ls, links =>
    if (links.length : Int) ≥ c.MAX_LINKS then links
    else addLinksFirst c ls (scanExtsFirst l c.EXTS links)

/-- The link list of the specification: the old links, then the allow-listed candidates in
input order, each once, as many as fit under `MAX_LINKS`. -/
def addLinksSpec (c : Config) (cands links : List String) : List String :=
  links ++ (cands.filter (fun l => decide (pathExt l ∈ c.EXTS))).take
    (c.MAX_LINKS - (links.length : Int)).toNat

/-- What holds of every registered task between two requests: the links are allow-listed,
the archive is stored exactly for Completed and Partial, and the status is at rest. -/
def Task.ok (c : Config) (t : Task) : Prop :=
  (∀ l ∈ t.links, pathExt l ∈ c.EXTS) ∧
    (t.archive.isSome ↔ (t.status = .Completed ∨ t.status = .Partial)) ∧
    (t.status = .Pending ∨ t.status.terminal)

/-! ## A concrete environment for worked examples -/

/-- The path of a link of the form `http://host/path`; other links are their own path. -/
def simplePath (link : String) : Option String :=
  if "http://".data.isPrefixOf link.data then
    some (String.mk ((link.data.drop 7).dropWhile (fun c => c ≠ '/')))
  else some link

/-- An environment in which the links listed in `down` answer with code 404 and all others
deliver one byte, results arrive in link order, and the zip writer fails as `archive/zip`
does: `Create` on a name longer than 65535 bytes, `Write` of data to a directory entry
(a name ending in a slash). -/
def demoWorld (down : List String) : World where
  httpGet := fun link => if link ∈ down then .ok (404, .ok []) else .ok (200, .ok [1])
  urlPath := simplePath
  arrival := fun fs => fs
  zipCreateErr := fun name => decide (65535 < name.utf8ByteSize)
  zipWriteErr := fun name data => decide (name.data.getLast? = some '/') && !data.isEmpty
  zipCloseErr := fun _ => false
  zipBytes := fun es => (es.map (fun e => e.2)).flatten ++ [80, 75, 5, 6]

/-- A configuration with the given allow-list and link quota. -/
def demoConfig (exts : List String) (maxLinks : Int) : Config :=
  ⟨"localhost", "8080", exts, maxLinks, 2⟩

/-! ## Lemmas on the add-links loop -/

theorem scanExts_of_not_mem (l : String) (es links : List String) (h : pathExt l ∉ es) :
    scanExts l es links = links := by
  induction es generalizing links with
  | nil => rfl
  | cons e es ih =>
    have he : e ≠ pathExt l := fun heq => h (by simp [heq])
    have hes : pathExt l ∉ es := fun hm => h (by simp [hm])
    simp [scanExts, he, ih links hes]

theorem scanExtsFirst_of_not_mem (l : String) (es links : List String) (h : pathExt l ∉ es) :
    scanExtsFirst l es links = links := by
  induction es with
  | nil => rfl
  | cons e es ih =>
    have he : e ≠ pathExt l := fun heq => h (by simp [heq])
    have hes : pathExt l ∉ es := fun hm => h (by simp [hm])
    simp [scanExtsFirst, he, ih hes]

theorem scanExtsFirst_of_mem (l : String) (es links : List String) (h : pathExt l ∈ es) :
    scanExtsFirst l es links = links ++ [l] := by
  induction es with
  | nil => simp at h
  | cons e es ih =>
    by_cases he : e = pathExt l
    · simp [scanExtsFirst, he]
    · have hes : pathExt l ∈ es := by
        rcases List.mem_cons.1 h with h1 | h1
        · exact absurd h1.symm he
        · exact h1
      simp [scanExtsFirst, he, ih hes]

theorem scanExts_eq_first (l : String) (es links : List String) (hnd : es.Nodup) :
    scanExts l es links = scanExtsFirst l es links := by
  induction es generalizing links with
  | nil => rfl
  | cons e es ih =>
    have hnd2 := List.nodup_cons.1 hnd
    by_cases he : e = pathExt l
    · have hes : pathExt l ∉ es := he ▸ hnd2.1
      simp [scanExts, scanExtsFirst, he, scanExts_of_not_mem l es _ hes]
    · simp [scanExts, scanExtsFirst, he, ih links hnd2.2]

theorem addLinks_eq_first (c : Config) (cands links : List String) (hnd : c.EXTS.Nodup) :
    addLinks c cands links = addLinksFirst c cands links := by
  induction cands generalizing links with
  | nil => rfl
  | cons l ls ih =>
    simp only [addLinks, addLinksFirst, scanExts_eq_first l c.EXTS links hnd, ih]

theorem addLinksFirst_eq_spec (c : Config) (cands links : List String) :
    addLinksFirst c cands links = addLinksSpec c cands links := by
  induction cands generalizing links with
  | nil => simp [addLinksFirst, addLinksSpec]
  | cons l ls ih =>
    unfold addLinksFirst
    by_cases hfull : (links.length : Int) ≥ c.MAX_LINKS
    · have h0 : (c.MAX_LINKS - (links.length : Int)).toNat = 0 := by omega
      simp [hfull, addLinksSpec, h0]
    · rw [if_neg hfull, ih]
      by_cases hm : pathExt l ∈ c.EXTS
      · rw [scanExtsFirst_of_mem l _ _ hm]
        have h1 : (c.MAX_LINKS - (links.length : Int)).toNat
            = (c.MAX_LINKS - ((links ++ [l]).length : Int)).toNat + 1 := by
          simp only [List.length_append, List.length_singleton]; omega
        simp [addLinksSpec, hm, h1]
      · rw [scanExtsFirst_of_not_mem l _ _ hm]
        simp [addLinksSpec, hm]

theorem mem_scanExts (l : String) (es links : List String) (x : String)
    (h : x ∈ scanExts l es links) : x ∈ links ∨ (x = l ∧ pathExt l ∈ es) := by
  induction es generalizing links with
  | nil => exact Or.inl h
  | cons e es ih =>
    unfold scanExts at h
    split at h
    · next he =>
      rcases ih _ h with h1 | h1
      · rcases List.mem_append.1 h1 with h2 | h2
        · exact Or.inl h2
        · exact Or.inr ⟨by simpa using h2, by simp [he]⟩
      · exact Or.inr ⟨h1.1, by simp [h1.2]⟩
    · rcases ih _ h with h1 | h1
      · exact Or.inl h1
      · exact Or.inr ⟨h1.1, by simp [h1.2]⟩

theorem mem_addLinks (c : Config) (cands links : List String) (x : String)
    (h : x ∈ addLinks c cands links) : x ∈ links ∨ (x ∈ cands ∧ pathExt x ∈ c.EXTS) := by
  induction cands generalizing links with
  | nil => exact Or.inl h
  | cons l ls ih =>
    unfold addLinks at h
    split at h
    · exact Or.inl h
    · rcases ih _ h with h1 | h1
      · rcases mem_scanExts l c.EXTS links x h1 with h2 | h2
        · exact Or.inl h2
        · exact Or.inr ⟨by simp [h2.1], h2.1 ▸ h2.2⟩
      · exact Or.inr ⟨by simp [h1.1], h1.2⟩

/-! ## Lemmas on `processTask` -/

theorem packStep_links (w : World) (st : Task × List ZipEntry) (f : Fetch) :
    (packStep w st f).1.links = st.1.links ∧ (packStep w st f).1.archive = st.1.archive := by
  unfold packStep
  split
  · exact ⟨rfl, rfl⟩
  · split
    · exact ⟨rfl, rfl⟩
    · split <;> exact ⟨rfl, rfl⟩

theorem foldl_packStep_links (w : World) (fetches : List Fetch) (st : Task × List ZipEntry) :
    (fetches.foldl (packStep w) st).1.links = st.1.links ∧
      (fetches.foldl (packStep w) st).1.archive = st.1.archive := by
  induction fetches generalizing st with
  | nil => exact ⟨rfl, rfl⟩
  | cons f fs ih =>
    simp only [List.foldl_cons]
    exact ⟨(ih _).1.trans (packStep_links w st f).1, (ih _).2.trans (packStep_links w st f).2⟩

theorem finish_links (w : World) (st : Task × List ZipEntry) :
    (finish w st).links = st.1.links := by
  unfold finish
  split
  · rfl
  · dsimp only
    split <;> rfl

theorem processFetches_links (w : World) (fetches : List Fetch) (task : Task) :
    (processFetches w fetches task).links = task.links := by
  unfold processFetches packLoop
  rw [finish_links]
  exact (foldl_packStep_links w fetches _).1

/-- The outcome of `finish`: Error without a new archive, or Completed or Partial with one. -/
theorem finish_cases (w : World) (st : Task × List ZipEntry) :
    ((finish w st).status = .Error ∧ (finish w st).archive = st.1.archive) ∨
      (((finish w st).status = .Completed ∨ (finish w st).status = .Partial) ∧
        (finish w st).archive = some (w.zipBytes st.2)) := by
  unfold finish
  split
  · exact Or.inl ⟨rfl, rfl⟩
  · dsimp only
    split
    · exact Or.inr ⟨Or.inl rfl, rfl⟩
    · next h => exact Or.inr ⟨Or.inr (by simpa using h), rfl⟩

theorem foldl_packStep_not_partial (w : World) (fetches : List Fetch)
    (st : Task × List ZipEntry) (h : ∀ f ∈ fetches, f.err = none)
    (hst : st.1.status ≠ .Partial) :
    (fetches.foldl (packStep w) st).1.status ≠ .Partial := by
  induction fetches generalizing st with
  | nil => exact hst
  | cons f fs ih =>
    simp only [List.foldl_cons]
    apply ih _ (fun g hg => h g (List.mem_cons_of_mem f hg))
    have hf := h f (List.mem_cons_self f fs)
    unfold packStep
    rw [hf]
    dsimp only
    split
    · simp
    · split
      · simp
      · exact hst

/-- When every fetch succeeds and the writer closes, `processTask` ends with Completed,
whether or not the create or the write of an entry failed in the loop. -/
theorem processFetches_completed_of_fetched (w : World) (fetches : List Fetch) (task : Task)
    (h : ∀ f ∈ fetches, f.err = none)
    (hclose : w.zipCloseErr (packLoop w fetches { task with status := .Processing }).2 = false) :
    (processFetches w fetches task).status = .Completed := by
  have hnp : (packLoop w fetches { task with status := .Processing }).1.status ≠ .Partial :=
    foldl_packStep_not_partial w fetches _ h (by simp)
  unfold processFetches finish
  rw [hclose]
  simp [hnp]

theorem processFetches_cases (w : World) (fetches : List Fetch) (task : Task) :
    ((processFetches w fetches task).status = .Error ∧
        (processFetches w fetches task).archive = task.archive) ∨
      (((processFetches w fetches task).status = .Completed ∨
          (processFetches w fetches task).status = .Partial) ∧
        (processFetches w fetches task).archive.isSome) := by
  unfold processFetches packLoop
  rcases finish_cases w (fetches.foldl (packStep w) ({ task with status := .Processing }, []))
    with h | h
  · exact Or.inl ⟨h.1, h.2.trans (foldl_packStep_links w fetches _).2⟩
  · exact Or.inr ⟨h.1, by rw [h.2]; rfl⟩

/-! ## Lemmas on the registry -/

theorem lookup_insert_eq (tasks : Tasks) (a id : String) (t : Task) :
    (tasks.insert a t).lookup id = if id = a then some t else tasks.lookup id := by
  by_cases h : id = a
  · subst h
    simp [AList.lookup_insert]
  · simp [h, AList.lookup_insert_ne h]

theorem lookup_erase_eq (tasks : Tasks) (a id : String) :
    (tasks.erase a).lookup id = if id = a then none else tasks.lookup id := by
  by_cases h : id = a
  · subst h
    simp [AList.lookup_erase]
  · simp [h, AList.lookup_erase_ne h]

theorem len_insert_le (tasks : Tasks) (a : String) (t : Task) :
    Tasks.len (tasks.insert a t) ≤ Tasks.len tasks + 1 := by
  unfold Tasks.len
  rw [AList.keys_insert, List.length_cons]
  have := List.length_erase_le a tasks.keys
  omega

theorem len_insert_of_mem (tasks : Tasks) (a : String) (t : Task) (h : a ∈ tasks) :
    Tasks.len (tasks.insert a t) = Tasks.len tasks := by
  unfold Tasks.len
  rw [AList.keys_insert, List.length_cons, List.length_erase_of_mem (AList.mem_keys.1 h)]
  have : 0 < tasks.keys.length := List.length_pos_of_mem (AList.mem_keys.1 h)
  omega

theorem len_insert_of_not_mem (tasks : Tasks) (a : String) (t : Task) (h : a ∉ tasks) :
    Tasks.len (tasks.insert a t) = Tasks.len tasks + 1 := by
  unfold Tasks.len
  have h2 : a ∉ tasks.keys := fun hm => h (AList.mem_keys.2 hm)
  rw [AList.keys_insert, List.length_cons, List.erase_of_not_mem h2]

theorem len_erase_le (tasks : Tasks) (a : String) :
    Tasks.len (tasks.erase a) ≤ Tasks.len tasks := by
  unfold Tasks.len
  rw [AList.keys_erase]
  exact List.length_erase_le a tasks.keys

theorem mem_of_lookup (tasks : Tasks) (id : String) (t : Task) (h : tasks.lookup id = some t) :
    id ∈ tasks := by
  rw [← AList.lookup_isSome, h]
  rfl

/-! ## The handlers, case by case -/

theorem linksHandler_not_pending (c : Config) (w : World) (tasks : Tasks) (id : String)
    (cands : List String) (t : Task) (hl : tasks.lookup id = some t)
    (hs : t.status ≠ .Pending) :
    linksHandler c w (some (id, cands)) tasks =
      (tasks, .error 400 "task does not accept more links") := by
  simp [linksHandler, hl, hs]

theorem linksHandler_saturated (c : Config) (w : World) (tasks : Tasks) (id : String)
    (cands : List String) (t : Task) (hl : tasks.lookup id = some t)
    (hs : t.status = .Pending)
    (hfull : ((addLinks c cands t.links).length : Int) ≥ c.MAX_LINKS) :
    linksHandler c w (some (id, cands)) tasks =
      (tasks.insert id (processTask w { t with links := addLinks c cands t.links }),
        .json [("status", "Processing")]) := by
  simp [linksHandler, hl, hs, hfull, TaskStatus.String]

theorem linksHandler_open (c : Config) (w : World) (tasks : Tasks) (id : String)
    (cands : List String) (t : Task) (hl : tasks.lookup id = some t)
    (hs : t.status = .Pending)
    (hfull : ¬ ((addLinks c cands t.links).length : Int) ≥ c.MAX_LINKS) :
    linksHandler c w (some (id, cands)) tasks =
      (tasks.insert id { t with links := addLinks c cands t.links },
        .json [("status", "Pending")]) := by
  simp only [linksHandler, hl, hs]
  simp [hfull, TaskStatus.String]

theorem processTask_ok (c : Config) (w : World) (t : Task) (hok : t.ok c)
    (hs : t.status = .Pending) : (processTask w t).ok c := by
  obtain ⟨h1, h2, _⟩ := hok
  have harch : t.archive = none := by
    cases ha : t.archive with
    | none => rfl
    | some b =>
      have := h2.1 (by simp [ha])
      rw [hs] at this
      simp at this
  unfold processTask
  refine ⟨?_, ?_, ?_⟩
  · rw [processFetches_links]; exact h1
  · rcases processFetches_cases w (fanOut w t.links) t with h | h
    · rw [h.1, h.2, harch]; simp
    · rcases h with ⟨hst, ha⟩
      exact ⟨fun _ => hst, fun _ => ha⟩
  · rcases processFetches_cases w (fanOut w t.links) t with h | h
    · exact Or.inr (Or.inr (Or.inr h.1))
    · rcases h.1 with h3 | h3
      · exact Or.inr (Or.inl h3)
      · exact Or.inr (Or.inr (Or.inl h3))

theorem addLinks_ok (c : Config) (cands : List String) (t : Task) (hok : t.ok c) :
    Task.ok c { t with links := addLinks c cands t.links } := by
  obtain ⟨h1, h2, h3⟩ := hok
  refine ⟨?_, h2, h3⟩
  intro l hl
  rcases mem_addLinks c cands t.links l hl with h | h
  · exact h1 l h
  · exact h.2

theorem step_ok (c : Config) (tasks : Tasks) (op : Op)
    (h : ∀ id t, tasks.lookup id = some t → t.ok c) :
    ∀ id t, (step c tasks op).lookup id = some t → t.ok c := by
  intro id t hl
  cases op with
  | create uuid =>
    simp only [step, taskHandler] at hl
    split at hl
    · exact h id t hl
    · rw [lookup_insert_eq] at hl
      split at hl
      · cases hl
        exact ⟨by simp, by simp, Or.inl rfl⟩
      · exact h id t hl
  | addLinks w body =>
    simp only [step] at hl
    cases body with
    | none => exact h id t hl
    | some req =>
      obtain ⟨id0, cands⟩ := req
      cases hl0 : tasks.lookup id0 with
      | none =>
        simp only [linksHandler, hl0] at hl
        exact h id t hl
      | some t0 =>
        by_cases hs : t0.status = .Pending
        · by_cases hfull : ((addLinks c cands t0.links).length : Int) ≥ c.MAX_LINKS
          · rw [linksHandler_saturated c w tasks id0 cands t0 hl0 hs hfull,
              lookup_insert_eq] at hl
            split at hl
            · cases hl
              exact processTask_ok c w _ (addLinks_ok c cands t0 (h id0 t0 hl0)) hs
            · exact h id t hl
          · rw [linksHandler_open c w tasks id0 cands t0 hl0 hs hfull,
              lookup_insert_eq] at hl
            split at hl
            · cases hl
              exact addLinks_ok c cands t0 (h id0 t0 hl0)
            · exact h id t hl
        · rw [linksHandler_not_pending c w tasks id0 cands t0 hl0 hs] at hl
          exact h id t hl
  | status _ => exact h id t hl
  | download urlPath writeErr =>
    simp only [step, downloadHandler] at hl
    split at hl
    · exact h id t hl
    · split at hl
      · exact h id t hl
      · rw [lookup_erase_eq] at hl
        split at hl
        · cases hl
        · exact h id t hl

theorem reachable_ok (c : Config) (tasks : Tasks) (hr : Reachable c tasks) :
    ∀ id t, tasks.lookup id = some t → t.ok c := by
  induction hr with
  | init => intro id t hl; simp at hl
  | next tasks op _ ih => exact step_ok c tasks op ih

theorem step_len (c : Config) (tasks : Tasks) (op : Op)
    (h : (Tasks.len tasks : Int) ≤ c.MAX_TASKS) :
    (Tasks.len (step c tasks op) : Int) ≤ c.MAX_TASKS := by
  cases op with
  | create uuid =>
    simp only [step, taskHandler]
    split
    · exact h
    · have := len_insert_le tasks uuid ⟨[], .Pending, "", none⟩
      dsimp only
      omega
  | addLinks w body =>
    simp only [step]
    cases body with
    | none => exact h
    | some req =>
      obtain ⟨id0, cands⟩ := req
      cases hl0 : tasks.lookup id0 with
      | none =>
        simp only [linksHandler, hl0]
        exact h
      | some t0 =>
        have hm := mem_of_lookup tasks id0 t0 hl0
        by_cases hs : t0.status = .Pending
        · by_cases hfull : ((addLinks c cands t0.links).length : Int) ≥ c.MAX_LINKS
          · rw [linksHandler_saturated c w tasks id0 cands t0 hl0 hs hfull]
            dsimp only
            rw [len_insert_of_mem tasks id0 _ hm]
            exact h
          · rw [linksHandler_open c w tasks id0 cands t0 hl0 hs hfull]
            dsimp only
            rw [len_insert_of_mem tasks id0 _ hm]
            exact h
        · rw [linksHandler_not_pending c w tasks id0 cands t0 hl0 hs]
          exact h
  | status _ => exact h
  | download urlPath writeErr =>
    simp only [step, downloadHandler]
    split
    · exact h
    · split
      · exact h
      · have := len_erase_le tasks (pathBase urlPath)
        dsimp only
        omega

theorem reachable_len (c : Config) (h0 : 0 ≤ c.MAX_TASKS) (tasks : Tasks)
    (hr : Reachable c tasks) : (Tasks.len tasks : Int) ≤ c.MAX_TASKS := by
  induction hr with
  | init => simpa [Tasks.len] using h0
  | next tasks op _ ih => exact step_len c tasks op ih

theorem processTask_terminal (w : World) (t : Task) : (processTask w t).status.terminal := by
  unfold processTask
  rcases processFetches_cases w (fanOut w t.links) t with h | h
  · exact Or.inr (Or.inr h.1)
  · rcases h.1 with h3 | h3
    · exact Or.inl h3
    · exact Or.inr (Or.inl h3)

theorem statusHandler_reports (c : Config) (tasks : Tasks) (id : String) (t : Task)
    (hl : tasks.lookup id = some t) :
    ∃ fields, statusHandler c id tasks = .json fields ∧ ("status", t.status.String) ∈ fields := by
  unfold statusHandler
  rw [hl]
  dsimp only
  split
  · next h => exact ⟨_, rfl, by simp [h]⟩
  · split
    · next h => exact ⟨_, rfl, by simp [h]⟩
    · exact ⟨_, rfl, by simp⟩

/-- With an allow-list without duplicates the add-links loop keeps the quota. -/
theorem addLinks_length_le_of_nodup (c : Config) (cands links : List String)
    (hnd : c.EXTS.Nodup) (hle : (links.length : Int) ≤ c.MAX_LINKS) :
    ((addLinks c cands links).length : Int) ≤ c.MAX_LINKS := by
  rw [addLinks_eq_first c cands links hnd, addLinksFirst_eq_spec]
  unfold addLinksSpec
  have := List.length_take_le (c.MAX_LINKS - (links.length : Int)).toNat
    (cands.filter (fun l => decide (pathExt l ∈ c.EXTS)))
  rw [List.length_append]
  omega

/-! ## The claims -/

/-- C1 (the code departs from the claim): the link `http://h/` under an allow-list holding the
empty extension is fetched, its entry `/` is created and the write to it fails, so the
specification's resolution is Error; `processTask` ends with Completed, because the final
test `status != StatusPartial` overwrites the Error set in the loop. -/
theorem C1_entry_failure_ends_completed :
    fanOut (demoWorld []) ["http://h/"] = [⟨"/", [1], none⟩] ∧
      entryFails (demoWorld []) ⟨"/", [1], none⟩ = true ∧
      priorityStatus (demoWorld []) (fanOut (demoWorld []) ["http://h/"]) = .Error ∧
      (processTask (demoWorld []) ⟨["http://h/"], .Pending, "", none⟩).status = .Completed := by
  decide

/-- C2 (counterexample): with quota 1 and allow-list `.png`, the add-links call that saturates
the Pending task `t` answers Processing, while the task then holds Completed. -/
theorem C2_counterexample :
    ((taskHandler (demoConfig [".png"] 1) "t" ∅).1.lookup "t").map Task.status = some .Pending ∧
      (linksHandler (demoConfig [".png"] 1) (demoWorld []) (some ("t", ["http://h/a.png"]))
        (taskHandler (demoConfig [".png"] 1) "t" ∅).1).2 = .json [("status", "Processing")] ∧
      ((linksHandler (demoConfig [".png"] 1) (demoWorld []) (some ("t", ["http://h/a.png"]))
        (taskHandler (demoConfig [".png"] 1) "t" ∅).1).1.lookup "t").map Task.status
          = some .Completed ∧
      (linksHandler (demoConfig [".png"] 1) (demoWorld []) (some ("t", ["http://h/a.png"]))
        (taskHandler (demoConfig [".png"] 1) "t" ∅).1).2
          ≠ .json [("status", TaskStatus.Completed.String)] := by
  decide

/-- C2 (amended): an add-links call on a Pending task whose link count reaches `MAX_LINKS`
answers with the status Processing, written before the processing run; after the call the
registry holds the task as `processTask` left it, with a terminal status, and a status query
reports that status. -/
theorem C2_saturating_call_answers_processing (c : Config) (w : World) (tasks : Tasks)
    (id : String) (cands : List String) (t : Task)
    (hl : tasks.lookup id = some t) (hs : t.status = .Pending)
    (hfull : ((addLinks c cands t.links).length : Int) ≥ c.MAX_LINKS) :
    (linksHandler c w (some (id, cands)) tasks).2
        = .json [("status", TaskStatus.Processing.String)] ∧
      ∃ t', (linksHandler c w (some (id, cands)) tasks).1.lookup id = some t' ∧
        t' = processTask w { t with links := addLinks c cands t.links } ∧
        t'.status.terminal ∧
        ∃ fields, statusHandler c id (linksHandler c w (some (id, cands)) tasks).1
            = .json fields ∧ ("status", t'.status.String) ∈ fields := by
  rw [linksHandler_saturated c w tasks id cands t hl hs hfull]
  refine ⟨rfl, _, by simp [lookup_insert_eq], rfl, processTask_terminal w _, ?_⟩
  exact statusHandler_reports c _ id _ (by simp [lookup_insert_eq])

/-- C2 (amended), at the request of the counterexample. -/
theorem C2_saturating_call_answers_processing_witness :
    (linksHandler (demoConfig [".png"] 1) (demoWorld []) (some ("t", ["http://h/a.png"]))
        (taskHandler (demoConfig [".png"] 1) "t" ∅).1).2
        = .json [("status", TaskStatus.Processing.String)] ∧
      ∃ t', (linksHandler (demoConfig [".png"] 1) (demoWorld [])
          (some ("t", ["http://h/a.png"]))
          (taskHandler (demoConfig [".png"] 1) "t" ∅).1).1.lookup "t" = some t' ∧
        t' = processTask (demoWorld [])
          { (⟨[], .Pending, "", none⟩ : Task) with
            links := addLinks (demoConfig [".png"] 1) ["http://h/a.png"] [] } ∧
        t'.status.terminal ∧
        ∃ fields, statusHandler (demoConfig [".png"] 1) "t"
            (linksHandler (demoConfig [".png"] 1) (demoWorld [])
              (some ("t", ["http://h/a.png"]))
              (taskHandler (demoConfig [".png"] 1) "t" ∅).1).1
            = .json fields ∧ ("status", t'.status.String) ∈ fields :=
  C2_saturating_call_answers_processing (demoConfig [".png"] 1) (demoWorld [])
    (taskHandler (demoConfig [".png"] 1) "t" ∅).1 "t" ["http://h/a.png"]
    ⟨[], .Pending, "", none⟩ (by decide) (by decide) (by decide)

/-- C3 (the code departs from the claim): with the allow-list `.png:.png` and quota 1, one
candidate is appended twice by the inner loop, and the empty link list of a fresh task grows
to two links. -/
theorem C3_duplicate_entry_exceeds_quota :
    addLinks (demoConfig [".png", ".png"] 1) ["http://h/a.png"] []
        = ["http://h/a.png", "http://h/a.png"] ∧
      (([] : List String).length : Int) ≤ (demoConfig [".png", ".png"] 1).MAX_LINKS ∧
      ¬ ((addLinks (demoConfig [".png", ".png"] 1) ["http://h/a.png"] []).length : Int)
          ≤ (demoConfig [".png", ".png"] 1).MAX_LINKS ∧
      ((linksHandler (demoConfig [".png", ".png"] 1) (demoWorld [])
          (some ("t", ["http://h/a.png"]))
          (taskHandler (demoConfig [".png", ".png"] 1) "t" ∅).1).1.lookup "t").map
            (fun t => t.links.length) = some 2 := by
  decide

/-- C10: for an allow-list without duplicates the add-links loop (with `continue`) yields the
same links as the loop that stops at the first match, namely the old links followed by the
allow-listed candidates in input order, each once, cut at the quota; with the duplicated
allow-list `.png:.png` the two loops differ. -/
theorem C10_continue_refines_break :
    (∀ (c : Config) (cands links : List String), c.EXTS.Nodup →
        addLinks c cands links = addLinksFirst c cands links ∧
        addLinks c cands links = addLinksSpec c cands links) ∧
      addLinks (demoConfig [".png", ".png"] 2) ["http://h/a.png"] []
        ≠ addLinksFirst (demoConfig [".png", ".png"] 2) ["http://h/a.png"] [] := by
  refine ⟨fun c cands links hnd => ⟨addLinks_eq_first c cands links hnd, ?_⟩, by decide⟩
  rw [addLinks_eq_first c cands links hnd, addLinksFirst_eq_spec]

/-- C10, at the allow-list `.png:.zip` with quota 2 and three candidates. -/
theorem C10_continue_refines_break_witness :
    addLinks (demoConfig [".png", ".zip"] 2) ["a.png", "b.txt", "c.zip", "d.png"] []
        = addLinksFirst (demoConfig [".png", ".zip"] 2) ["a.png", "b.txt", "c.zip", "d.png"] [] ∧
      addLinks (demoConfig [".png", ".zip"] 2) ["a.png", "b.txt", "c.zip", "d.png"] []
        = addLinksSpec (demoConfig [".png", ".zip"] 2) ["a.png", "b.txt", "c.zip", "d.png"] [] :=
  C10_continue_refines_break.1 (demoConfig [".png", ".zip"] 2)
    ["a.png", "b.txt", "c.zip", "d.png"] [] (by decide)

/-! ## The archive loop without entry failures -/

theorem join_cons (e : String) (l : List String) : String.join (e :: l) = e ++ String.join l := by
  apply String.ext
  simp [String.data_join]

theorem failureTexts_length_add (fetches : List Fetch) :
    (failureTexts fetches).length + (successEntries fetches).length = fetches.length := by
  induction fetches with
  | nil => rfl
  | cons f fs ih =>
    cases he : f.err with
    | none =>
      simp only [failureTexts, successEntries, List.filterMap_cons, he, List.filter_cons,
        Option.isNone_none, if_true, List.map_cons, List.length_cons] at ih ⊢
      omega
    | some e =>
      simp only [failureTexts, successEntries, List.filterMap_cons, he, List.filter_cons,
        Option.isNone_some, Bool.false_eq_true, if_false, List.length_cons] at ih ⊢
      omega

theorem foldl_packStep_clean (w : World) (fetches : List Fetch) (st : Task × List ZipEntry)
    (h : ∀ f ∈ fetches, entryFails w f = false) :
    (fetches.foldl (packStep w) st).1.log = st.1.log ++ String.join (failureTexts fetches) ∧
      (fetches.foldl (packStep w) st).2 = st.2 ++ successEntries fetches ∧
      (fetches.foldl (packStep w) st).1.status
        = if failureTexts fetches = [] then st.1.status else .Partial := by
  induction fetches generalizing st with
  | nil => simp [failureTexts, successEntries, String.join]
  | cons f fs ih =>
    have ih2 := ih (packStep w st f) (fun g hg => h g (List.mem_cons_of_mem f hg))
    have hf := h f (List.mem_cons_self f fs)
    simp only [List.foldl_cons]
    cases he : f.err with
    | some e =>
      have hp : packStep w st f = ({ st.1 with status := .Partial, log := st.1.log ++ e }, st.2) := by
        simp [packStep, he]
      have hft : failureTexts (f :: fs) = e :: failureTexts fs := by
        simp [failureTexts, he]
      have hse : successEntries (f :: fs) = successEntries fs := by
        simp [successEntries, he]
      rw [hp] at ih2
      rw [hp, hft, hse, join_cons, ← String.append_assoc]
      refine ⟨ih2.1, ih2.2.1, ?_⟩
      rw [ih2.2.2]
      simp
    | none =>
      have hce : w.zipCreateErr f.filename = false := by
        simpa [entryFails, he] using (by simpa [entryFails, he] using hf :
          w.zipCreateErr f.filename = false ∧ w.zipWriteErr f.filename f.data = false).1
      have hwe : w.zipWriteErr f.filename f.data = false := by
        simpa [entryFails, he] using (by simpa [entryFails, he] using hf :
          w.zipCreateErr f.filename = false ∧ w.zipWriteErr f.filename f.data = false).2
      have hp : packStep w st f = (st.1, st.2 ++ [(f.filename, f.data)]) := by
        simp [packStep, he, hce, hwe]
      have hft : failureTexts (f :: fs) = failureTexts fs := by
        simp [failureTexts, he]
      have hse : successEntries (f :: fs) = (f.filename, f.data) :: successEntries fs := by
        simp [successEntries, he]
      rw [hp] at ih2
      rw [hp, hft, hse]
      refine ⟨ih2.1, ?_, ih2.2.2⟩
      rw [ih2.2.1]
      simp

/-- The archive loop and the closing lines on any content of the channel: with `k` fetch
failures among `n` outcomes, `1 ≤ k < n`, and no archive failure, the status is Partial, the
log has grown by the failure texts and the writer holds the entries of the successes. -/
theorem processFetches_partial_run (w : World) (fetches : List Fetch) (task : Task)
    (n k : Nat)
    (hn : fetches.length = n) (hk : (failureTexts fetches).length = k)
    (h1 : 1 ≤ k) (h2 : k < n)
    (hentry : ∀ f ∈ fetches, entryFails w f = false)
    (hclose : w.zipCloseErr (successEntries fetches) = false) :
    (processFetches w fetches task).status = .Partial ∧
      (processFetches w fetches task).log = task.log ++ String.join (failureTexts fetches) ∧
      (task.log = "" →
        (processFetches w fetches task).log = String.join (failureTexts fetches)) ∧
      (packLoop w fetches { task with status := .Processing }).2 = successEntries fetches ∧
      (successEntries fetches).length = n - k ∧
      (processFetches w fetches task).archive = some (w.zipBytes (successEntries fetches)) := by
  have hc := foldl_packStep_clean w fetches ({ task with status := .Processing }, []) hentry
  have hne : failureTexts fetches ≠ [] := by
    intro h0
    rw [h0] at hk
    simp at hk
    omega
  have hlen := failureTexts_length_add fetches
  have hent : (packLoop w fetches { task with status := .Processing }).2
      = successEntries fetches := by
    unfold packLoop
    rw [hc.2.1]
    rfl
  have hst : (packLoop w fetches { task with status := .Processing }).1.status = .Partial := by
    unfold packLoop
    rw [hc.2.2, if_neg hne]
  have hlog : (packLoop w fetches { task with status := .Processing }).1.log
      = task.log ++ String.join (failureTexts fetches) := hc.1
  have hfin : processFetches w fetches task
      = { (packLoop w fetches { task with status := .Processing }).1 with
          archive := some (w.zipBytes (successEntries fetches)) } := by
    unfold processFetches finish
    rw [hent, hclose]
    simp [hst]
  refine ⟨?_, ?_, ?_, hent, by omega, ?_⟩
  · rw [hfin]; exact hst
  · rw [hfin]; exact hlog
  · intro h0
    rw [hfin]
    show (packLoop w fetches { task with status := .Processing }).1.log = _
    rw [hlog, h0, String.empty_append]
  · rw [hfin]

/-- C6: a run of `processTask` whose channel delivers `n` outcomes of which `k` are fetch
failures, `1 ≤ k < n`, without an archive failure (no entry create or write fails, the writer
closes), ends with Partial; the task's log has grown by the `k` failure texts, in channel
order, each once (so it is their concatenation for the empty log every task starts with);
the zip writer holds the `n - k` entries of the successful fetches, one each, and the task's
archive is the buffer written from exactly these entries. -/
theorem C6_partial_run (w : World) (task : Task) (n k : Nat)
    (hn : (fanOut w task.links).length = n)
    (hk : (failureTexts (fanOut w task.links)).length = k)
    (h1 : 1 ≤ k) (h2 : k < n)
    (hentry : ∀ f ∈ fanOut w task.links, entryFails w f = false)
    (hclose : w.zipCloseErr (successEntries (fanOut w task.links)) = false) :
    (processTask w task).status = .Partial ∧
      (processTask w task).log
        = task.log ++ String.join (failureTexts (fanOut w task.links)) ∧
      (task.log = "" →
        (processTask w task).log = String.join (failureTexts (fanOut w task.links))) ∧
      (failureTexts (fanOut w task.links)).length = k ∧
      (packLoop w (fanOut w task.links) { task with status := .Processing }).2
        = successEntries (fanOut w task.links) ∧
      (successEntries (fanOut w task.links)).length = n - k ∧
      (processTask w task).archive
        = some (w.zipBytes (successEntries (fanOut w task.links))) ∧
      (processTask w task).links = task.links := by
  have h := processFetches_partial_run w (fanOut w task.links) task n k hn hk h1 h2 hentry hclose
  exact ⟨h.1, h.2.1, h.2.2.1, hk, h.2.2.2.1, h.2.2.2.2.1, h.2.2.2.2.2,
    processFetches_links w (fanOut w task.links) task⟩

/-- C6, at `processTask` on two links of which the second answers 404. -/
theorem C6_partial_run_witness :
    (processTask (demoWorld ["http://h/b.png"])
        ⟨["http://h/a.png", "http://h/b.png"], .Pending, "", none⟩).status = .Partial ∧
      (processTask (demoWorld ["http://h/b.png"])
        ⟨["http://h/a.png", "http://h/b.png"], .Pending, "", none⟩).log
          = "failed to fetch http://h/b.png: code 404" ∧
      (successEntries (fanOut (demoWorld ["http://h/b.png"])
        ["http://h/a.png", "http://h/b.png"])).length = 2 - 1 ∧
      (processTask (demoWorld ["http://h/b.png"])
        ⟨["http://h/a.png", "http://h/b.png"], .Pending, "", none⟩).archive
          = some ((demoWorld ["http://h/b.png"]).zipBytes [("a.png", [1])]) :=
  have h := C6_partial_run (demoWorld ["http://h/b.png"])
    ⟨["http://h/a.png", "http://h/b.png"], .Pending, "", none⟩ 2 1
    (by decide) (by decide) (by decide) (by decide) (by decide) (by decide)
  ⟨h.1, (h.2.2.1 rfl).trans (by decide), h.2.2.2.2.2.1, h.2.2.2.2.2.2.1.trans (by decide)⟩

theorem linksHandler_pending (c : Config) (w : World) (tasks : Tasks) (id : String)
    (cands : List String) (t : Task) (hl : tasks.lookup id = some t)
    (hs : t.status = .Pending) :
    ∃ t' fields, linksHandler c w (some (id, cands)) tasks = (tasks.insert id t', .json fields) ∧
      t'.links = addLinks c cands t.links := by
  by_cases hfull : ((addLinks c cands t.links).length : Int) ≥ c.MAX_LINKS
  · refine ⟨_, _, linksHandler_saturated c w tasks id cands t hl hs hfull, ?_⟩
    unfold processTask
    rw [processFetches_links]
  · exact ⟨_, _, linksHandler_open c w tasks id cands t hl hs hfull, rfl⟩

/-- C4: every link of every task of a reachable registry has an extension of the allow-list;
an add-links call on a Pending task with a candidate of another extension answers without an
error, and the candidate is absent from the task's links after the call. -/
theorem C4_links_allow_listed (c : Config) (tasks : Tasks) (hr : Reachable c tasks)
    (id : String) (t : Task) (hl : tasks.lookup id = some t) :
    (∀ l ∈ t.links, pathExt l ∈ c.EXTS) ∧
      ∀ (w : World) (cands : List String) (x : String),
        t.status = .Pending → x ∈ cands → pathExt x ∉ c.EXTS →
          (∃ fields, (linksHandler c w (some (id, cands)) tasks).2 = .json fields) ∧
          ∃ t', (linksHandler c w (some (id, cands)) tasks).1.lookup id = some t' ∧
            x ∉ t'.links := by
  refine ⟨(reachable_ok c tasks hr id t hl).1, ?_⟩
  intro w cands x hs _ hx
  obtain ⟨t', fields, heq, _⟩ := linksHandler_pending c w tasks id cands t hl hs
  have hlook : (linksHandler c w (some (id, cands)) tasks).1.lookup id = some t' := by
    rw [heq]
    simp [lookup_insert_eq]
  refine ⟨⟨fields, by rw [heq]⟩, t', hlook, ?_⟩
  intro hmem
  have hr2 : Reachable c (step c tasks (.addLinks w (some (id, cands)))) :=
    Reachable.next tasks _ hr
  exact hx ((reachable_ok c _ hr2 id t' hlook).1 x hmem)

/-- C4, at a task holding one `.png` link that is offered an `.exe` link. -/
theorem C4_links_allow_listed_witness :
    pathExt "http://h/a.png" ∈ (demoConfig [".png"] 2).EXTS ∧
      (∃ fields, (linksHandler (demoConfig [".png"] 2) (demoWorld [])
          (some ("t", ["http://h/b.exe"]))
          (step (demoConfig [".png"] 2) (step (demoConfig [".png"] 2) ∅ (.create "t"))
            (.addLinks (demoWorld []) (some ("t", ["http://h/a.png"]))))).2 = .json fields) ∧
      ∃ t', (linksHandler (demoConfig [".png"] 2) (demoWorld [])
          (some ("t", ["http://h/b.exe"]))
          (step (demoConfig [".png"] 2) (step (demoConfig [".png"] 2) ∅ (.create "t"))
            (.addLinks (demoWorld []) (some ("t", ["http://h/a.png"]))))).1.lookup "t"
            = some t' ∧
        "http://h/b.exe" ∉ t'.links :=
  have h := C4_links_allow_listed (demoConfig [".png"] 2)
    (step (demoConfig [".png"] 2) (step (demoConfig [".png"] 2) ∅ (.create "t"))
      (.addLinks (demoWorld []) (some ("t", ["http://h/a.png"]))))
    (Reachable.next _ _ (Reachable.next _ _ Reachable.init))
    "t" ⟨["http://h/a.png"], .Pending, "", none⟩ (by decide)
  ⟨h.1 "http://h/a.png" (by decide),
    h.2 (demoWorld []) ["http://h/b.exe"] "http://h/b.exe" rfl (by decide) (by decide)⟩

/-- C5: in every reachable registry a task has a stored archive exactly when its status is
Completed or Partial; Pending and Error tasks have none, Completed and Partial tasks have
one. -/
theorem C5_archive_iff_completed_or_partial (c : Config) (tasks : Tasks)
    (hr : Reachable c tasks) (id : String) (t : Task) (hl : tasks.lookup id = some t) :
    (t.archive ≠ none ↔ (t.status = .Completed ∨ t.status = .Partial)) ∧
      ((t.status = .Pending ∨ t.status = .Error) → t.archive = none) ∧
      ((t.status = .Completed ∨ t.status = .Partial) → ∃ bytes, t.archive = some bytes) := by
  obtain ⟨_, h2, _⟩ := reachable_ok c tasks hr id t hl
  have hiff : t.archive ≠ none ↔ (t.status = .Completed ∨ t.status = .Partial) := by
    rw [← h2]
    cases t.archive <;> simp
  refine ⟨hiff, ?_, ?_⟩
  · intro hs
    by_contra hne
    rcases hiff.1 hne with h | h <;> rcases hs with h' | h' <;> rw [h] at h' <;> cases h'
  · intro hs
    cases ha : t.archive with
    | none => exact absurd ha (hiff.2 hs)
    | some b => exact ⟨b, rfl⟩

/-- C5, at the registry after a task was created and saturated with one link. -/
theorem C5_archive_iff_completed_or_partial_witness :
    ((some [1, 80, 75, 5, 6] : Option Bytes) ≠ none ↔
        (TaskStatus.Completed = .Completed ∨ TaskStatus.Completed = .Partial)) ∧
      ∃ bytes, (some [1, 80, 75, 5, 6] : Option Bytes) = some bytes :=
  have h := C5_archive_iff_completed_or_partial (demoConfig [".png"] 1)
    (step (demoConfig [".png"] 1) (step (demoConfig [".png"] 1) ∅ (.create "t"))
      (.addLinks (demoWorld []) (some ("t", ["http://h/a.png"]))))
    (Reachable.next _ _ (Reachable.next _ _ Reachable.init))
    "t" ⟨["http://h/a.png"], .Completed, "", some [1, 80, 75, 5, 6]⟩ (by decide)
  ⟨h.1, h.2.2 (Or.inl rfl)⟩

/-! ## Tasks that have left Pending -/

theorem step_frozen (c : Config) (tasks : Tasks) (op : Op) (id : String) (t : Task)
    (hs : t.status ≠ .Pending) (hop : op ≠ .create id)
    (h : ∀ t', tasks.lookup id = some t' → t' = t) :
    ∀ t', (step c tasks op).lookup id = some t' → t' = t := by
  intro t' hl
  cases op with
  | create uuid =>
    have hne : id ≠ uuid := fun heq => hop (by rw [heq])
    simp only [step, taskHandler] at hl
    split at hl
    · exact h t' hl
    · rw [lookup_insert_eq, if_neg hne] at hl
      exact h t' hl
  | addLinks w body =>
    simp only [step] at hl
    cases body with
    | none => exact h t' hl
    | some req =>
      obtain ⟨id0, cands⟩ := req
      cases hl0 : tasks.lookup id0 with
      | none =>
        simp only [linksHandler, hl0] at hl
        exact h t' hl
      | some t0 =>
        by_cases hs0 : t0.status = .Pending
        · have hne : id ≠ id0 := by
            intro heq
            subst heq
            rw [h t0 hl0] at hs0
            exact hs hs0
          obtain ⟨t1, fields, heq, _⟩ := linksHandler_pending c w tasks id0 cands t0 hl0 hs0
          rw [heq, lookup_insert_eq, if_neg hne] at hl
          exact h t' hl
        · rw [linksHandler_not_pending c w tasks id0 cands t0 hl0 hs0] at hl
          exact h t' hl
  | status _ => exact h t' hl
  | download urlPath writeErr =>
    simp only [step, downloadHandler] at hl
    split at hl
    · exact h t' hl
    · split at hl
      · exact h t' hl
      · rw [lookup_erase_eq] at hl
        split at hl
        · cases hl
        · exact h t' hl

theorem runOps_frozen (c : Config) (ops : List Op) (tasks : Tasks) (id : String) (t : Task)
    (hs : t.status ≠ .Pending) (hops : ∀ op ∈ ops, op ≠ .create id)
    (h : ∀ t', tasks.lookup id = some t' → t' = t) :
    ∀ t', (runOps c tasks ops).lookup id = some t' → t' = t := by
  induction ops generalizing tasks with
  | nil => exact h
  | cons op ops ih =>
    simp only [runOps, List.foldl_cons]
    exact ih (step c tasks op) (fun o ho => hops o (List.mem_cons_of_mem op ho))
      (step_frozen c tasks op id t hs (hops op (List.mem_cons_self op ops)) h)

/-- C7: on a registered task the add-links call fails with InvalidState (code 400, "task does
not accept more links") exactly when the status is not Pending, and then returns the registry
as it was; hence, through any sequence of requests in which `uuid.NewString` does not hand
out the task's identifier again, a task that has left Pending stays as it is (links, status,
log and archive) for as long as it is registered. -/
theorem C7_invalid_state_iff_not_pending (c : Config) (w : World) (tasks : Tasks)
    (id : String) (cands : List String) (t : Task) (hl : tasks.lookup id = some t) :
    ((linksHandler c w (some (id, cands)) tasks).2
          = .error 400 "task does not accept more links" ↔ t.status ≠ .Pending) ∧
      (t.status ≠ .Pending → (linksHandler c w (some (id, cands)) tasks).1 = tasks) ∧
      (t.status ≠ .Pending → ∀ ops : List Op, (∀ op ∈ ops, op ≠ .create id) →
        ∀ t', (runOps c tasks ops).lookup id = some t' → t' = t ∧ t'.links = t.links) := by
  refine ⟨⟨?_, ?_⟩, ?_, ?_⟩
  · intro hresp hs
    obtain ⟨t', fields, heq, _⟩ := linksHandler_pending c w tasks id cands t hl hs
    rw [heq] at hresp
    cases hresp
  · intro hs
    rw [linksHandler_not_pending c w tasks id cands t hl hs]
  · intro hs
    rw [linksHandler_not_pending c w tasks id cands t hl hs]
  · intro hs ops hops t' hl'
    have := runOps_frozen c ops tasks id t hs hops
      (fun t0 h0 => by rw [hl] at h0; cases h0; rfl) t' hl'
    exact ⟨this, by rw [this]⟩

/-- C7, at a Completed task that is offered another link, then queried. -/
theorem C7_invalid_state_iff_not_pending_witness :
    (linksHandler (demoConfig [".png"] 1) (demoWorld []) (some ("t", ["http://h/b.png"]))
        (step (demoConfig [".png"] 1) (step (demoConfig [".png"] 1) ∅ (.create "t"))
          (.addLinks (demoWorld []) (some ("t", ["http://h/a.png"]))))).2
        = .error 400 "task does not accept more links" ∧
      (linksHandler (demoConfig [".png"] 1) (demoWorld []) (some ("t", ["http://h/b.png"]))
        (step (demoConfig [".png"] 1) (step (demoConfig [".png"] 1) ∅ (.create "t"))
          (.addLinks (demoWorld []) (some ("t", ["http://h/a.png"]))))).1
        = step (demoConfig [".png"] 1) (step (demoConfig [".png"] 1) ∅ (.create "t"))
          (.addLinks (demoWorld []) (some ("t", ["http://h/a.png"]))) ∧
      ((runOps (demoConfig [".png"] 1)
          (step (demoConfig [".png"] 1) (step (demoConfig [".png"] 1) ∅ (.create "t"))
            (.addLinks (demoWorld []) (some ("t", ["http://h/a.png"]))))
          [.addLinks (demoWorld []) (some ("t", ["http://h/b.png"])), .status "t"]).lookup "t").map
            Task.links = some ["http://h/a.png"] :=
  have h := C7_invalid_state_iff_not_pending (demoConfig [".png"] 1) (demoWorld [])
    (step (demoConfig [".png"] 1) (step (demoConfig [".png"] 1) ∅ (.create "t"))
      (.addLinks (demoWorld []) (some ("t", ["http://h/a.png"]))))
    "t" ["http://h/b.png"] ⟨["http://h/a.png"], .Completed, "", some [1, 80, 75, 5, 6]⟩
    (by decide)
  ⟨h.1.2 (by decide), h.2.1 (by decide), by decide⟩

/-- C8: `taskHandler` fails with CapacityExceeded (code 503) exactly when the registry holds
`MAX_TASKS` tasks or more, and then returns the registry as it was; otherwise the identifier
maps to a task with status Pending, no links, an empty log and no archive, every other
identifier maps to what it did, and a fresh identifier makes the registry one larger; so with
`MAX_TASKS ≥ 0` no reachable registry holds more than `MAX_TASKS` tasks. -/
theorem C8_create_admission (c : Config) (uuid : String) (tasks : Tasks) :
    ((taskHandler c uuid tasks).2 = .error 503 "maximum number of active tasks reached" ↔
        (Tasks.len tasks : Int) ≥ c.MAX_TASKS) ∧
      ((Tasks.len tasks : Int) ≥ c.MAX_TASKS → (taskHandler c uuid tasks).1 = tasks) ∧
      ((Tasks.len tasks : Int) < c.MAX_TASKS →
        (taskHandler c uuid tasks).1.lookup uuid = some ⟨[], .Pending, "", none⟩ ∧
        (∀ id, id ≠ uuid → (taskHandler c uuid tasks).1.lookup id = tasks.lookup id) ∧
        (uuid ∉ tasks → Tasks.len (taskHandler c uuid tasks).1 = Tasks.len tasks + 1)) ∧
      (0 ≤ c.MAX_TASKS → ∀ s, Reachable c s → (Tasks.len s : Int) ≤ c.MAX_TASKS) := by
  refine ⟨⟨?_, ?_⟩, ?_, ?_, fun h0 s hr => reachable_len c h0 s hr⟩
  · intro hresp
    by_contra hlt
    simp [taskHandler, hlt] at hresp
  · intro hge
    simp [taskHandler, hge]
  · intro hge
    simp [taskHandler, hge]
  · intro hlt
    have hnot : ¬ (Tasks.len tasks : Int) ≥ c.MAX_TASKS := by omega
    have heq : (taskHandler c uuid tasks).1 = tasks.insert uuid ⟨[], .Pending, "", none⟩ := by
      simp [taskHandler, hnot]
    rw [heq]
    refine ⟨by simp [lookup_insert_eq], ?_, ?_⟩
    · intro id hne
      simp [lookup_insert_eq, hne]
    · intro hfresh
      exact len_insert_of_not_mem tasks uuid _ hfresh

/-- C8, at a registry of one task under `MAX_TASKS = 2`, then at the full registry. -/
theorem C8_create_admission_witness :
    (taskHandler (demoConfig [".png"] 1) "u"
        (step (demoConfig [".png"] 1) ∅ (.create "t"))).1.lookup "u"
        = some ⟨[], .Pending, "", none⟩ ∧
      Tasks.len (taskHandler (demoConfig [".png"] 1) "u"
        (step (demoConfig [".png"] 1) ∅ (.create "t"))).1 = 2 ∧
      (taskHandler (demoConfig [".png"] 1) "v"
        (step (demoConfig [".png"] 1) (step (demoConfig [".png"] 1) ∅ (.create "t"))
          (.create "u"))).2 = .error 503 "maximum number of active tasks reached" ∧
      (Tasks.len (step (demoConfig [".png"] 1) (step (demoConfig [".png"] 1)
        (step (demoConfig [".png"] 1) ∅ (.create "t")) (.create "u")) (.create "v")) : Int)
          ≤ (demoConfig [".png"] 1).MAX_TASKS :=
  ⟨((C8_create_admission (demoConfig [".png"] 1) "u"
      (step (demoConfig [".png"] 1) ∅ (.create "t"))).2.2.1 (by decide)).1,
    ((C8_create_admission (demoConfig [".png"] 1) "u"
      (step (demoConfig [".png"] 1) ∅ (.create "t"))).2.2.1 (by decide)).2.2 (by decide),
    (C8_create_admission (demoConfig [".png"] 1) "v"
      (step (demoConfig [".png"] 1) (step (demoConfig [".png"] 1) ∅ (.create "t"))
        (.create "u"))).1.2 (by decide),
    (C8_create_admission (demoConfig [".png"] 1) "v" ∅).2.2.2 (by decide) _
      (Reachable.next _ _ (Reachable.next _ _ (Reachable.next _ _ Reachable.init)))⟩

/-- C9: a download of a registered identifier whose write succeeds sends the task's archive
bytes and removes that identifier and no other from the registry; a download of an
unregistered identifier fails with NotFound (code 404) and returns the registry as it was; a
download that follows a successful one of the same identifier fails with NotFound. -/
theorem C9_download_removes_task (urlPath : String) (tasks : Tasks) :
    (∀ t, tasks.lookup (pathBase urlPath) = some t →
        (∃ headers, (downloadHandler urlPath false tasks).2
          = .file headers (t.archive.getD [])) ∧
        (downloadHandler urlPath false tasks).1.lookup (pathBase urlPath) = none ∧
        ∀ id, id ≠ pathBase urlPath →
          (downloadHandler urlPath false tasks).1.lookup id = tasks.lookup id) ∧
      (tasks.lookup (pathBase urlPath) = none → ∀ writeErr,
        downloadHandler urlPath writeErr tasks = (tasks, .error 404 "wrong download link")) ∧
      ∀ writeErr, (downloadHandler urlPath writeErr (downloadHandler urlPath false tasks).1).2
        = .error 404 "wrong download link" := by
  have hnone : ∀ (s : Tasks), s.lookup (pathBase urlPath) = none → ∀ writeErr,
      downloadHandler urlPath writeErr s = (s, .error 404 "wrong download link") := by
    intro s hs writeErr
    simp [downloadHandler, hs]
  have hsome : ∀ t, tasks.lookup (pathBase urlPath) = some t →
      (downloadHandler urlPath false tasks).1 = tasks.erase (pathBase urlPath) := by
    intro t ht
    simp [downloadHandler, ht]
  refine ⟨?_, hnone tasks, ?_⟩
  · intro t ht
    refine ⟨⟨_, by simp only [downloadHandler, ht]; rfl⟩, ?_, ?_⟩
    · rw [hsome t ht]
      simp [lookup_erase_eq]
    · intro id hne
      rw [hsome t ht]
      simp [lookup_erase_eq, hne]
  · intro writeErr
    have hgone : (downloadHandler urlPath false tasks).1.lookup (pathBase urlPath) = none := by
      cases ht : tasks.lookup (pathBase urlPath) with
      | none => rw [hnone tasks ht false]; exact ht
      | some t =>
        rw [hsome t ht]
        simp [lookup_erase_eq]
    rw [hnone _ hgone writeErr]

/-- C9, at the download of a Completed task and its repetition. -/
theorem C9_download_removes_task_witness :
    (∃ headers, (downloadHandler "/download/t" false
        (step (demoConfig [".png"] 1) (step (demoConfig [".png"] 1) ∅ (.create "t"))
          (.addLinks (demoWorld []) (some ("t", ["http://h/a.png"]))))).2
          = .file headers [1, 80, 75, 5, 6]) ∧
      (downloadHandler "/download/t" false
        (step (demoConfig [".png"] 1) (step (demoConfig [".png"] 1) ∅ (.create "t"))
          (.addLinks (demoWorld []) (some ("t", ["http://h/a.png"]))))).1.lookup "t" = none ∧
      (downloadHandler "/download/t" false (downloadHandler "/download/t" false
        (step (demoConfig [".png"] 1) (step (demoConfig [".png"] 1) ∅ (.create "t"))
          (.addLinks (demoWorld []) (some ("t", ["http://h/a.png"]))))).1).2
          = .error 404 "wrong download link" :=
  have h := C9_download_removes_task "/download/t"
    (step (demoConfig [".png"] 1) (step (demoConfig [".png"] 1) ∅ (.create "t"))
      (.addLinks (demoWorld []) (some ("t", ["http://h/a.png"]))))
  have h1 := h.1 ⟨["http://h/a.png"], .Completed, "", some [1, 80, 75, 5, 6]⟩ (by decide)
  ⟨h1.1, h1.2.1, h.2.2 false⟩

end Zipr
